import Mathlib

/-!
Shallow embedding of the synchronization daemon in `bup.go` (package main):
the `GitBackend` sync pipeline (`Sync`, `pull`, `push`, `git`), the status
summary renderer (`displayStatus`), the path filter (`isGit`, `ShouldWatch`),
the debouncer (`Changed`, `syncLater`) and the initial watch walk
(`Client.addWatches`).  External process execution is modelled by an
environment (`World`) giving each git invocation its combined output and
exit status; time is discrete (seconds, `Nat`).
-/

/-- Result of running one external command: its combined output and its
exit status (`0` = success), mirroring `cmd.CombinedOutput()` plus
`WaitStatus.ExitStatus()` in `GitBackend.git`. -/
structure ExecResult where
  output : String
  status : Nat
deriving Repr, DecidableEq

/-- The `GitError` struct of bup.go: command line, combined output, exit
status.  (The wrapped Go `error` object carries no further data used by
the program.) -/
structure GitError where
  cmd : String
  output : String
  status : Nat
deriving Repr, DecidableEq

/-- `GitBackend.git`: run one git command; `nil` on success, otherwise a
`GitError` built from the command line, output and exit status
(bup.go lines 507-532). -/
def gitRun (args : String) (r : ExecResult) : Option GitError :=
  if r.status = 0 then none
  else some { cmd := "git " ++ args, output := r.output, status := r.status }

/-- Environment for one `Sync()` call: the result each external git
invocation would produce, whether a push hook is registered
(`RegisterPushHook`), and whether the hook body itself would fail. -/
structure World where
  fetch : ExecResult
  merge : ExecResult
  add : ExecResult
  commit : ExecResult
  push : ExecResult
  hookRegistered : Bool
  hookFails : Bool
deriving Repr, DecidableEq

/-- Primitive steps taken by `GitBackend.Sync`, in program order: writes to
`isSyncActive`, external command invocations (both `git` calls and the
`status`/`diff` queries issued through `GitBackend.status`), and the
`go self.pushHook()` launch. -/
inductive SyncAction where
  | setActive (b : Bool)
  | runCmd (c : String)
  | fireHook
deriving Repr, DecidableEq

/-- `GitBackend.pull` (bup.go lines 489-501): `git fetch`; on success a
`diff origin/master --name-status` status query, then `git merge
origin/master`.  Returns the actions performed and the error, if any. -/
def pull (w : World) : List SyncAction × Option GitError :=
  match gitRun "fetch" w.fetch with
  | some e => ([.runCmd "fetch"], some e)
  | none =>
    match gitRun "merge origin/master" w.merge with
    | some e =>
      ([.runCmd "fetch", .runCmd "diff origin/master --name-status",
        .runCmd "merge origin/master"], some e)
    | none =>
      ([.runCmd "fetch", .runCmd "diff origin/master --name-status",
        .runCmd "merge origin/master"], none)

/-- `GitBackend.push` (bup.go lines 480-486): `git push`; on success, if a
hook is registered, launch it with `go self.pushHook()`. -/
def pushStep (w : World) : List SyncAction × Option GitError :=
  match gitRun "push" w.push with
  | some e => ([.runCmd "push"], some e)
  | none =>
    if w.hookRegistered then ([.runCmd "push", .fireHook], none)
    else ([.runCmd "push"], none)

/-- One `Sync()` call, observed as the list of primitive actions performed
and the returned error (`none` = nil). -/
structure SyncRun where
  actions : List SyncAction
  result : Option GitError
deriving Repr, DecidableEq

/-- `GitBackend.Sync` (bup.go lines 322-362): set `isSyncActive`, run
`pull`; then `git add --all`; then the `status --porcelain` summary; then
`git commit --all --message=loftus`; then `push`; `isSyncActive` is
cleared just before every `return`. -/
def sync (w : World) : SyncRun :=
  let (pullActs, pullErr) := pull w
  match pullErr with
  | some e => ⟨[.setActive true] ++ pullActs ++ [.setActive false], some e⟩
  | none =>
    match gitRun "add --all" w.add with
    | some e =>
      ⟨[.setActive true] ++ pullActs ++ [.runCmd "add --all", .setActive false], some e⟩
    | none =>
      match gitRun "commit --all --message=loftus" w.commit with
      | some e =>
        ⟨[.setActive true] ++ pullActs ++
          [.runCmd "add --all", .runCmd "status --porcelain",
           .runCmd "commit --all --message=loftus", .setActive false], some e⟩
      | none =>
        let (pushActs, pushErr) := pushStep w
        match pushErr with
        | some e =>
          ⟨[.setActive true] ++ pullActs ++
            [.runCmd "add --all", .runCmd "status --porcelain",
             .runCmd "commit --all --message=loftus"] ++ pushActs ++
            [.setActive false], some e⟩
        | none =>
          ⟨[.setActive true] ++ pullActs ++
            [.runCmd "add --all", .runCmd "status --porcelain",
             .runCmd "commit --all --message=loftus"] ++ pushActs ++
            [.setActive false], none⟩

/-- The external commands invoked during a run, in order. -/
def cmdsOf (acts : List SyncAction) : List String :=
  acts.filterMap fun a =>
    match a with
    | .runCmd c => some c
    | _ => none

/-- Value of `isSyncActive` after executing the actions, starting from `b`. -/
def flagAfter (b : Bool) : List SyncAction → Bool
  | [] => b
  | .setActive b1 :: rest => flagAfter b1 rest
  | _ :: rest => flagAfter b rest

/-- Value of `isSyncActive` observed at each external command invocation,
starting from `b`. -/
def cmdFlags (b : Bool) : List SyncAction → List Bool
  | [] => []
  | .setActive b1 :: rest => cmdFlags b1 rest
  | .runCmd _ :: rest => b :: cmdFlags b rest
  | .fireHook :: rest => cmdFlags b rest

/-- Number of times the push hook is launched during the run. -/
def hookCount (acts : List SyncAction) : Nat :=
  acts.countP fun a => a = .fireHook

/-- The spec's outcome taxonomy for one pipeline run. -/
inductive SyncOutcome where
  | success
  | noOpCommit
  | failure (e : GitError)
deriving Repr, DecidableEq

/-- Outcome classification as the program performs it: exit status `1` is
the recognized "nothing to do" sentinel (`startClient`, bup.go line 121:
`err.(*GitError).status != 1` warns; `GitBackend.git` line 528: status 1
"means command had nothing to do"); a nil error is success and any other
status is a failure carrying the `GitError`. -/
def classify (r : Option GitError) : SyncOutcome :=
  match r with
  | none => .success
  | some e => if e.status = 1 then .noOpCommit else .failure e

/-- The five version-control pipeline operations, in the fixed pipeline
order of `Sync`. -/
def pipelineCmds : List String :=
  ["fetch", "merge origin/master", "add --all",
   "commit --all --message=loftus", "push"]

/-- Whether a command is one of the five pipeline operations (as opposed to
a `status`/`diff` summary query). -/
def isPipelineCmd (c : String) : Bool :=
  pipelineCmds.contains c

/-- One category of `GitBackend.displayStatus` (bup.go lines 365-391): a
singleton list contributes `label` plus the filename, a longer list
contributes `label` plus the decimal count (`strconv.Itoa`), an empty
list contributes nothing. -/
def catPart (label : String) (files : List String) : String :=
  if files.length = 1 then label ++ files.headI
  else if 1 < files.length then label ++ toString files.length
  else ""

/-- The message `displayStatus` accumulates: the `New: `, ` Edit: ` and
` Del: ` pieces concatenated in order (note the leading space hard-coded
into the second and third labels in the source). -/
def displayStatusMsg (created modified deleted : List String) : String :=
  catPart "New: " created ++ catPart " Edit: " modified ++ catPart " Del: " deleted

/-- The notification `displayStatus` emits: `Info(msg)` exactly when
`len(msg) != 0` (bup.go lines 388-390). -/
def displayStatusEmit (created modified deleted : List String) : Option String :=
  let msg := displayStatusMsg created modified deleted
  if msg.length ≠ 0 then some msg else none

/-- Does the character list `s` start with the pattern `p`?  (Helper for
the substring test behind Go `strings.Contains`.) -/
def leadsWith : List Char → List Char → Bool
  | _, [] => true
  | [], _ :: _ => false
  | c :: t, d :: u => c = d && leadsWith t u

/-- Does the character list `s` contain the pattern `p` as a contiguous
run?  This is Go `strings.Contains` on the character level. -/
def charsContain : List Char → List Char → Bool
  | [], p => p.isEmpty
  | c :: t, p => leadsWith (c :: t) p || charsContain t p

/-- `GitBackend.isGit` (bup.go lines 453-455):
`strings.Contains(filename, ".git")`. -/
def isGit (filename : String) : Bool :=
  charsContain filename.toList ".git".toList

/-- `GitBackend.ShouldWatch` (bup.go lines 399-401). -/
def shouldWatch (filename : String) : Bool :=
  !isGit filename

/-- The mutable debouncer state of `GitBackend`: `isSyncPending`,
`isSyncActive`, `lastEvent`, plus an instrumentation counter `waiters`
recording how many debounce tasks are currently pending (entered their
locked section as the waiter and not yet cleared the flag). -/
structure BackendState where
  isSyncPending : Bool
  isSyncActive : Bool
  lastEvent : Nat
  waiters : Nat
deriving Repr, DecidableEq

/-- The backend state at process start: both flags false, no waiter. -/
def initState : BackendState :=
  { isSyncPending := false, isSyncActive := false, lastEvent := 0, waiters := 0 }

/-- `GitBackend.Changed` (bup.go lines 313-319): paths inside `.git`, or
any event during an active sync, are ignored; otherwise `lastEvent` is
set to now and a `syncLater` task is spawned (the returned Bool). -/
def changed (st : BackendState) (now : Nat) (filename : String) :
    BackendState × Bool :=
  if isGit filename || st.isSyncActive then (st, false)
  else ({ st with lastEvent := now }, true)

/-- Atomic steps of the debouncer, at the granularity the `syncLock`
mutex guarantees (bup.go lines 458-477): `enter t` is one spawned
`syncLater` call together with the `lastEvent = now` write of the
`Changed` call that spawned it; `clear` is the pending waiter finishing
(`isSyncPending = false` after `Sync`). -/
inductive DebOp where
  | enter (t : Nat)
  | clear
deriving Repr, DecidableEq

/-- Effect of one debouncer step: an `enter` updates `lastEvent` and, when
no task is pending, marks pending and becomes the waiter; when a task is
already pending it changes nothing else.  A `clear` drops the pending
flag and retires the waiter. -/
def debStep (st : BackendState) : DebOp → BackendState
  | .enter t =>
    let st1 := { st with lastEvent := t }
    if st1.isSyncPending then st1
    else { st1 with isSyncPending := true, waiters := st1.waiters + 1 }
  | .clear => { st with isSyncPending := false, waiters := st.waiters - 1 }

/-- Run a sequence of debouncer steps. -/
def debRun (st : BackendState) : List DebOp → BackendState
  | [] => st
  | op :: rest => debRun (debStep st op) rest

/-- All states reached while running a sequence of debouncer steps,
including the initial and final ones. -/
def debStates (st : BackendState) : List DebOp → List BackendState
  | [] => [st]
  | op :: rest => st :: debStates (debStep st op) rest

/-- A step sequence is valid when every `clear` is performed by an actual
pending waiter (only the task that set the flag clears it). -/
def debValid (st : BackendState) : List DebOp → Bool
  | [] => true
  | op :: rest =>
    (match op with
     | .clear => decide (1 ≤ st.waiters)
     | _ => true) && debValid (debStep st op) rest

/-- Latest event time not after `t`, over the recorded event times:
the value `lastEvent` holds when the waiting loop tests
`time.Now().Sub(self.lastEvent)` at time `t`. -/
def lastEventAt : List Nat → Nat → Nat
  | [], _ => 0
  | e :: rest, t =>
    if e ≤ t then max e (lastEventAt rest t) else lastEventAt rest t

/-- Largest event time in the burst. -/
def maxEv : List Nat → Nat
  | [] => 0
  | e :: rest => max e (maxEv rest)

/-- The `syncLater` waiting loop (bup.go lines 469-471), checking once per
second: at time `t`, if at least `SYNC_IDLE_SECS = 5` seconds have passed
since the latest event the loop exits (and `Sync` starts at `t`),
otherwise it sleeps one second and rechecks.  `fuel` bounds the
iteration count; `maxEv events + 5 - t` steps always suffice. -/
def waitLoopAux (events : List Nat) : Nat → Nat → Nat
  | 0, t => t
  | fuel + 1, t =>
    if 5 ≤ t - lastEventAt events t then t
    else waitLoopAux events fuel (t + 1)

/-- Time at which the waiting loop started at time `start` exits and the
debounced `Sync` begins. -/
def waitLoop (events : List Nat) (start : Nat) : Nat :=
  waitLoopAux events (maxEv events + 5 - start) start

/-- One entry seen by the `filepath.Walk` of `Client.addWatches`
(bup.go lines 187-201): a path and whether it is a directory. -/
structure WalkEntry where
  path : String
  isDir : Bool
deriving Repr, DecidableEq

/-- The `addSingleWatch` callback (bup.go lines 189-195): when the entry is
a directory the backend wants watched it calls `AddWatch` and DISCARDS its
result; the callback itself always returns nil to the walk.  Returns the
error handed back to `Walk` and whether an `AddWatch` failure occurred
(`addWatchErr` gives the failure an `AddWatch` on that path would report). -/
def addSingleWatch (addWatchErr : String → Option String) (e : WalkEntry) :
    Option String × Bool :=
  if e.isDir && shouldWatch e.path then (none, (addWatchErr e.path).isSome)
  else (none, false)

/-- Outcome of the initial walk: the error `filepath.Walk` returned, the
qualifying directories whose watch registration failed, and whether the
process exited (`logger.Fatal` on a non-nil walk error, bup.go
lines 197-200). -/
structure WalkRun where
  walkErr : Option String
  failedRegs : List String
  fatal : Bool
deriving Repr, DecidableEq

/-- `filepath.Walk` over the entries: stops at the first error the callback
returns, collecting the discarded registration failures along the way. -/
def walkFold (addWatchErr : String → Option String) :
    List WalkEntry → Option String × List String
  | [] => (none, [])
  | e :: rest =>
    match addSingleWatch addWatchErr e with
    | (some err, failed) => (some err, if failed then [e.path] else [])
    | (none, failed) =>
      let (r, fs) := walkFold addWatchErr rest
      (r, (if failed then [e.path] else []) ++ fs)

/-- `Client.addWatches`: run the walk, then `logger.Fatal` exactly when the
walk returned an error. -/
def addWatches (entries : List WalkEntry) (addWatchErr : String → Option String) :
    WalkRun :=
  let (werr, fs) := walkFold addWatchErr entries
  { walkErr := werr, failedRegs := fs, fatal := werr.isSome }

/-- Space-separated joining of a list of strings (plain joining, used to
state the spec-side render below). -/
def joinSp : List String → String
  | [] => ""
  | [s] => s
  | s :: t :: rest => s ++ " " ++ joinSp (t :: rest)

/-- One category segment as the spec words it: a category with exactly one
entry contributes `<Label>: <filename>`, one with more entries
contributes `<Label>: <count>`, an empty one is omitted. -/
def specSeg (label : String) (files : List String) : List String :=
  if files.length = 1 then [label ++ files.headI]
  else if 1 < files.length then [label ++ toString files.length]
  else []

/-- The render as the spec describes it, for refinement comparison with
`displayStatusMsg`: the present category segments joined space-separated
in the fixed order New, Edit, Del. -/
def specRender (created modified deleted : List String) : String :=
  joinSp (specSeg "New: " created ++ specSeg "Edit: " modified ++
    specSeg "Del: " deleted)

/-- A successful external command. -/
def execOk : ExecResult := ⟨"", 0⟩

/-- Environment in which `git fetch` exits with status 1 and everything
else would succeed. -/
def wFetchOne : World := ⟨⟨"", 1⟩, execOk, execOk, execOk, execOk, false, false⟩

/-- Environment in which the whole pipeline succeeds up to `git push`,
which exits with status 1 (e.g. a rejected push), with a hook registered. -/
def wPushOne : World := ⟨execOk, execOk, execOk, execOk, ⟨"rejected", 1⟩, true, false⟩

/-- Environment in which fetch, merge and stage succeed and the commit
exits with the no-op sentinel status 1. -/
def wCommitOne : World := ⟨execOk, execOk, execOk, ⟨"nothing to commit", 1⟩, execOk, true, false⟩

/-- Environment in which every pipeline step succeeds, with a hook
registered. -/
def wAllOk : World := ⟨execOk, execOk, execOk, execOk, execOk, true, false⟩

/-- A single qualifying subdirectory seen by the initial walk. -/
def walkOneDir : List WalkEntry := [⟨"/sync/sub", true⟩]

/-- An `AddWatch` oracle that fails on every path. -/
def oracleFail : String → Option String := fun _ => some "inotify add watch failed"

/-- Claim C4: on every invocation of `Sync()` the `isSyncActive` flag is
set to true on entry (the first action), every external command of the
run executes with the flag true, and the flag is false again on every
exit path. -/
theorem sync_active_flag_discipline (w : World) :
    (sync w).actions.head? = some (SyncAction.setActive true) ∧
    ((cmdFlags false (sync w).actions).all fun b => b) = true ∧
    flagAfter false (sync w).actions = false := by
  by_cases hf : w.fetch.status = 0 <;>
  by_cases hm : w.merge.status = 0 <;>
  by_cases ha : w.add.status = 0 <;>
  by_cases hc : w.commit.status = 0 <;>
  by_cases hp : w.push.status = 0 <;>
  by_cases hh : w.hookRegistered = true <;>
  simp [sync, pull, pushStep, gitRun, hf, hm, ha, hc, hp, hh,
    cmdFlags, flagAfter]

/-- Claim C1: when fetch, merge and stage succeed, a commit exiting with
the recognized no-op sentinel status 1 makes the run a NoOpCommit outcome
(never a Failure) and the push step is not attempted; a commit exiting
with any other nonzero status makes the run a Failure, also without a
push. -/
theorem commit_noop_sentinel (w : World)
    (hf : w.fetch.status = 0) (hm : w.merge.status = 0) (ha : w.add.status = 0) :
    (w.commit.status = 1 →
      classify (sync w).result = SyncOutcome.noOpCommit ∧
      (∀ e, classify (sync w).result ≠ SyncOutcome.failure e) ∧
      "push" ∉ cmdsOf (sync w).actions) ∧
    (w.commit.status ≠ 0 → w.commit.status ≠ 1 →
      classify (sync w).result =
        SyncOutcome.failure
          ⟨"git commit --all --message=loftus", w.commit.output, w.commit.status⟩ ∧
      "push" ∉ cmdsOf (sync w).actions) := by
  constructor
  · intro hc
    simp [sync, pull, pushStep, gitRun, classify, cmdsOf, hf, hm, ha, hc]
  · intro hc0 hc1
    simp [sync, pull, pushStep, gitRun, classify, cmdsOf, hf, hm, ha, hc0, hc1]

/-- Witness for C1 at a concrete environment: with fetch, merge and stage
succeeding and commit exiting with status 1, the outcome is NoOpCommit
and push is not invoked. -/
theorem commit_noop_sentinel_witness :
    classify (sync wCommitOne).result = SyncOutcome.noOpCommit ∧
    "push" ∉ cmdsOf (sync wCommitOne).actions := by
  have h := commit_noop_sentinel wCommitOne rfl rfl rfl
  exact ⟨(h.1 rfl).1, (h.1 rfl).2.2⟩

/-- Claim C7: every `Sync()` call invokes the version-control pipeline
operations in the fixed order fetch, merge, stage-all, commit-all (with
the fixed message), push — whatever pipeline operations run form a prefix
of that fixed order — and when fetch, merge, stage and commit all succeed
the whole fixed sequence runs; a fully successful run returns nil,
classified as Success. -/
theorem sync_pipeline_order (w : World) :
    ((cmdsOf (sync w).actions).filter isPipelineCmd) <+: pipelineCmds ∧
    (w.fetch.status = 0 → w.merge.status = 0 → w.add.status = 0 →
     w.commit.status = 0 →
     ((cmdsOf (sync w).actions).filter isPipelineCmd) = pipelineCmds ∧
     (w.push.status = 0 →
       (sync w).result = none ∧ classify (sync w).result = SyncOutcome.success)) := by
  by_cases hf : w.fetch.status = 0 <;>
  by_cases hm : w.merge.status = 0 <;>
  by_cases ha : w.add.status = 0 <;>
  by_cases hc : w.commit.status = 0 <;>
  by_cases hp : w.push.status = 0 <;>
  by_cases hh : w.hookRegistered = true <;>
  simp [sync, pull, pushStep, gitRun, classify, cmdsOf, isPipelineCmd,
    pipelineCmds, hf, hm, ha, hc, hp, hh]

/-- Witness for C7 at a concrete environment in which every step succeeds:
the five pipeline operations run, in the fixed order, and the outcome is
Success. -/
theorem sync_pipeline_order_witness :
    ((cmdsOf (sync wAllOk).actions).filter isPipelineCmd) = pipelineCmds ∧
    classify (sync wAllOk).result = SyncOutcome.success := by
  have h := sync_pipeline_order wAllOk
  exact ⟨(h.2 rfl rfl rfl rfl).1, ((h.2 rfl rfl rfl rfl).2 rfl).2⟩

/-- Counterexample to claim C8 as stated: when `git fetch` exits with
status 1 (a non-success exit), the pipeline does abort with only the
fetch invoked, but the run is classified by the program's status-1
sentinel check as the benign no-op outcome, not as a Failure. -/
theorem fetch_failure_noop_counterexample :
    wFetchOne.fetch.status ≠ 0 ∧
    cmdsOf (sync wFetchOne).actions = ["fetch"] ∧
    classify (sync wFetchOne).result = SyncOutcome.noOpCommit ∧
    ∀ e, classify (sync wFetchOne).result ≠ SyncOutcome.failure e := by
  refine ⟨by decide, by decide, by decide, ?_⟩
  intro e
  simp [sync, pull, gitRun, classify, wFetchOne, execOk]

/-- Claim C8 as amended: a non-success exit of fetch or merge aborts the
pipeline immediately — staging, commit and push are not invoked — and
`Sync` returns the `GitError` carrying the failing command, its combined
output and its exit status; the run is classified a Failure for every
exit status other than 1, while a status-1 exit is classified as the
benign no-op by the shared sentinel check. -/
theorem fetch_merge_failure_aborts (w : World) :
    (w.fetch.status ≠ 0 →
      (sync w).result = some ⟨"git fetch", w.fetch.output, w.fetch.status⟩ ∧
      cmdsOf (sync w).actions = ["fetch"] ∧
      (w.fetch.status ≠ 1 →
        classify (sync w).result =
          SyncOutcome.failure ⟨"git fetch", w.fetch.output, w.fetch.status⟩)) ∧
    (w.fetch.status = 0 → w.merge.status ≠ 0 →
      (sync w).result =
        some ⟨"git merge origin/master", w.merge.output, w.merge.status⟩ ∧
      cmdsOf (sync w).actions =
        ["fetch", "diff origin/master --name-status", "merge origin/master"] ∧
      (w.merge.status ≠ 1 →
        classify (sync w).result =
          SyncOutcome.failure
            ⟨"git merge origin/master", w.merge.output, w.merge.status⟩)) := by
  constructor
  · intro hf
    refine ⟨?_, ?_, ?_⟩ <;>
    simp [sync, pull, pushStep, gitRun, classify, cmdsOf, hf]
  · intro hf hm
    refine ⟨?_, ?_, ?_⟩ <;>
    simp [sync, pull, pushStep, gitRun, classify, cmdsOf, hf, hm]

/-- Witness for the amended C8 at a concrete environment in which
`git fetch` exits with status 2: the pipeline aborts after the fetch and
the run is a Failure. -/
theorem fetch_merge_failure_aborts_witness :
    cmdsOf (sync ⟨⟨"fatal", 2⟩, execOk, execOk, execOk, execOk, false, false⟩).actions
      = ["fetch"] ∧
    classify (sync ⟨⟨"fatal", 2⟩, execOk, execOk, execOk, execOk, false, false⟩).result
      = SyncOutcome.failure ⟨"git fetch", "fatal", 2⟩ := by
  have h := fetch_merge_failure_aborts
    ⟨⟨"fatal", 2⟩, execOk, execOk, execOk, execOk, false, false⟩
  exact ⟨(h.1 (by decide)).2.1, (h.1 (by decide)).2.2 (by decide)⟩

/-- Counterexample to claim C9 as stated: after a real commit, a
`git push` exiting with status 1 (a non-success exit, e.g. a rejected
push) is classified by the program's status-1 sentinel check as the
benign no-op outcome, not as a Failure (the push hook indeed does not
run). -/
theorem push_failure_noop_counterexample :
    wPushOne.push.status ≠ 0 ∧
    hookCount (sync wPushOne).actions = 0 ∧
    classify (sync wPushOne).result = SyncOutcome.noOpCommit ∧
    ∀ e, classify (sync wPushOne).result ≠ SyncOutcome.failure e := by
  refine ⟨by decide, by decide, by decide, ?_⟩
  intro e
  simp [sync, pull, pushStep, gitRun, classify, wPushOne, execOk]

/-- Claim C9 as amended: after a successful fetch, merge, stage and
commit, a non-success push exit makes `Sync` return the `GitError` of the
push (a Failure for every status other than 1, while a status-1 push exit
is classified as the benign no-op by the shared sentinel check) and no
push hook runs; on push success with a hook registered the hook is
launched exactly once (fire-and-forget), and the behavior of the hook
body is not observed by the caller: the entire run is unchanged whether
or not the hook fails. -/
theorem push_failure_hook_discipline (w : World)
    (hf : w.fetch.status = 0) (hm : w.merge.status = 0)
    (ha : w.add.status = 0) (hc : w.commit.status = 0) :
    (w.push.status ≠ 0 →
      (sync w).result = some ⟨"git push", w.push.output, w.push.status⟩ ∧
      hookCount (sync w).actions = 0 ∧
      (w.push.status ≠ 1 →
        classify (sync w).result =
          SyncOutcome.failure ⟨"git push", w.push.output, w.push.status⟩)) ∧
    (w.push.status = 0 →
      (sync w).result = none ∧
      hookCount (sync w).actions = (if w.hookRegistered then 1 else 0)) ∧
    (∀ b, sync { w with hookFails := b } = sync w) := by
  refine ⟨?_, ?_, ?_⟩
  · intro hp
    refine ⟨?_, ?_, ?_⟩ <;>
    simp [sync, pull, pushStep, gitRun, classify, hookCount, hf, hm, ha, hc, hp]
  · intro hp
    by_cases hh : w.hookRegistered = true <;>
    simp [sync, pull, pushStep, gitRun, hookCount, hf, hm, ha, hc, hp, hh]
  · intro b
    by_cases hp : w.push.status = 0 <;>
    by_cases hh : w.hookRegistered = true <;>
    simp [sync, pull, pushStep, gitRun, hf, hm, ha, hc, hp, hh]

/-- Witness for the amended C9 at two concrete environments: a push
exiting with status 2 after a real commit is a Failure with no hook run,
and a successful push with a registered hook launches the hook exactly
once. -/
theorem push_failure_hook_discipline_witness :
    (classify (sync ⟨execOk, execOk, execOk, execOk, ⟨"refused", 2⟩, true, false⟩).result
      = SyncOutcome.failure ⟨"git push", "refused", 2⟩ ∧
     hookCount (sync ⟨execOk, execOk, execOk, execOk, ⟨"refused", 2⟩, true, false⟩).actions
      = 0) ∧
    hookCount (sync wAllOk).actions = 1 := by
  have h1 := push_failure_hook_discipline
    ⟨execOk, execOk, execOk, execOk, ⟨"refused", 2⟩, true, false⟩ rfl rfl rfl rfl
  have h2 := push_failure_hook_discipline wAllOk rfl rfl rfl rfl
  exact ⟨⟨(h1.1 (by decide)).2.2 (by decide), (h1.1 (by decide)).2.1⟩,
    ((h2.2.1 rfl).2).trans (by decide)⟩

/-- The ` Edit: ` label hard-coded in `displayStatus` is a space followed
by the `Edit: ` label of the spec wording. -/
theorem spaceEdit_eq : (" Edit: " : String) = " " ++ "Edit: " := rfl

/-- The ` Del: ` label hard-coded in `displayStatus` is a space followed
by the `Del: ` label of the spec wording. -/
theorem spaceDel_eq : (" Del: " : String) = " " ++ "Del: " := rfl

/-- A category piece of the status message is empty exactly when its file
list is empty (for the nonempty labels used by `displayStatus`). -/
theorem catPart_length_zero (label : String) (files : List String)
    (hl : label.length ≠ 0) : (catPart label files).length = 0 ↔ files = [] := by
  rcases files with _ | ⟨x, _ | ⟨y, t⟩⟩ <;>
    simp [catPart, String.length_append] <;> omega

/-- Counterexample to claim C2 as stated: with created and deleted empty
and modified a single file, the program renders a string with a leading
space (the space is hard-coded into the ` Edit: ` label), which differs
from the space-separated join of the present category segments that the
claim describes. -/
theorem status_summary_join_counterexample :
    displayStatusMsg [] ["c.txt"] [] = " Edit: c.txt" ∧
    specRender [] ["c.txt"] [] = "Edit: c.txt" ∧
    displayStatusMsg [] ["c.txt"] [] ≠ specRender [] ["c.txt"] [] := by
  exact ⟨rfl, rfl, by decide⟩

/-- Claim C2 as amended: the rendered summary appends `<Label>: <filename>`
for a singleton category and `<Label>: <count>` for a larger one, omits
empty categories, in the fixed order New, Edit, Del — but the Edit and
Del segments always carry a leading space, so the result equals the
space-separated join of the present segments only when the New category
is present; when New is absent and another category is present the
rendered string is a leading space followed by that join.  The two
concrete renders of the claim hold, and no notification is emitted
exactly when all three lists are empty. -/
theorem status_summary_render :
    (∀ c m d : List String,
      displayStatusMsg c m d =
        (if c.length = 0 ∧ ¬(m.length = 0 ∧ d.length = 0) then " " else "") ++
          specRender c m d) ∧
    (∀ c m d : List String,
      displayStatusEmit c m d = none ↔ (c = [] ∧ m = [] ∧ d = [])) ∧
    displayStatusMsg ["a.txt"] [] [] = "New: a.txt" ∧
    displayStatusMsg ["a.txt", "b.txt"] ["c.txt"] [] = "New: 2 Edit: c.txt" ∧
    displayStatusEmit [] [] [] = none := by
  refine ⟨?_, ?_, rfl, rfl, rfl⟩
  · intro c m d
    rcases c with _ | ⟨x, _ | ⟨x2, ct⟩⟩ <;>
    rcases m with _ | ⟨y, _ | ⟨y2, mt⟩⟩ <;>
    rcases d with _ | ⟨z, _ | ⟨z2, dt⟩⟩ <;>
    simp [displayStatusMsg, catPart, specRender, specSeg, joinSp,
      spaceEdit_eq, spaceDel_eq, String.append_assoc, String.empty_append,
      String.append_empty] <;>
    rfl
  · intro c m d
    have h1 := catPart_length_zero "New: " c (by decide)
    have h2 := catPart_length_zero " Edit: " m (by decide)
    have h3 := catPart_length_zero " Del: " d (by decide)
    simp only [displayStatusEmit, displayStatusMsg]
    split_ifs with h
    · simp only [reduceCtorEq, false_iff]
      intro hall
      rcases hall with ⟨hc, hm, hd⟩
      subst hc; subst hm; subst hd
      simp [catPart] at h
    · rw [not_not] at h
      rw [String.length_append, String.length_append] at h
      simp only [true_iff]
      exact ⟨h1.mp (by omega), h2.mp (by omega), h3.mp (by omega)⟩

/-- The walk never returns an error (the callback always returns nil) and
the discarded registration failures are exactly the qualifying
directories on which `AddWatch` fails. -/
theorem walkFold_spec (oracle : String → Option String) (entries : List WalkEntry) :
    walkFold oracle entries =
      (none,
       (entries.filter fun e =>
         e.isDir && shouldWatch e.path && (oracle e.path).isSome).map
         fun e => e.path) := by
  induction entries with
  | nil => rfl
  | cons e rest ih =>
    cases hq : e.isDir && shouldWatch e.path <;>
    cases ho : (oracle e.path).isSome <;>
    simp [walkFold, addSingleWatch, ih, hq, ho, List.filter_cons]

/-- Counterexample to claim C3 as stated: the walk visits one qualifying
subdirectory, its `AddWatch` registration fails, and the process does not
exit — the failure is silently discarded. -/
theorem addwatch_failure_not_fatal_counterexample :
    (addWatches walkOneDir oracleFail).failedRegs = ["/sync/sub"] ∧
    (addWatches walkOneDir oracleFail).fatal = false := by
  decide

/-- Claim C3 as amended: failures to register a watch during the initial
walk are never fatal — the callback discards the `AddWatch` error and
always returns nil, so `filepath.Walk` returns no error, `logger.Fatal`
(the only exit, taken exactly when the walk errs) never fires, and the
walk continues past every failed qualifying directory, whose registration
failures are exactly the discarded ones. -/
theorem addwatch_walk_never_fatal (entries : List WalkEntry)
    (oracle : String → Option String) :
    (addWatches entries oracle).walkErr = none ∧
    (addWatches entries oracle).fatal = false ∧
    (addWatches entries oracle).failedRegs =
      (entries.filter fun e =>
        e.isDir && shouldWatch e.path && (oracle e.path).isSome).map
        fun e => e.path := by
  simp [addWatches, walkFold_spec]

/-- `leadsWith` is the starts-with relation. -/
theorem leadsWith_iff (p : List Char) :
    ∀ s : List Char, leadsWith s p = true ↔ ∃ rest, p ++ rest = s := by
  induction p with
  | nil =>
    intro s
    simp [leadsWith.eq_def]
  | cons d u ih =>
    intro s
    cases s with
    | nil => simp [leadsWith]
    | cons c t =>
      simp only [leadsWith, Bool.and_eq_true, decide_eq_true_eq, ih,
        List.cons_append, List.cons.injEq]
      constructor
      · rintro ⟨hcd, rest, hrest⟩
        exact ⟨rest, hcd.symm, hrest⟩
      · rintro ⟨rest, hdc, hrest⟩
        exact ⟨hdc.symm, rest, hrest⟩

/-- `charsContain` is the contiguous-substring relation (Go
`strings.Contains` at the character level). -/
theorem charsContain_iff (p : List Char) :
    ∀ s : List Char, charsContain s p = true ↔ ∃ pre post, pre ++ p ++ post = s := by
  intro s
  induction s with
  | nil =>
    simp [charsContain, List.isEmpty_iff, List.append_eq_nil]
  | cons c t ih =>
    simp only [charsContain, Bool.or_eq_true, leadsWith_iff, ih]
    constructor
    · rintro (⟨rest, hrest⟩ | ⟨pre, post, hpp⟩)
      · exact ⟨[], rest, by simp [hrest]⟩
      · exact ⟨c :: pre, post, by simp [hpp]⟩
    · rintro ⟨pre, post, hpp⟩
      cases pre with
      | nil =>
        left
        exact ⟨post, by simpa using hpp⟩
      | cons a pre1 =>
        right
        rw [List.cons_append, List.cons_append] at hpp
        injection hpp with _ h2
        exact ⟨pre1, post, h2⟩

/-- Claim C10: the backend excludes a path exactly when it contains
`.git` anywhere as a contiguous substring; in particular
`notes.github.txt` is excluded, and on every excluded path `Changed` is a
no-op: the state is unchanged and no debounce task is spawned. -/
theorem watch_filter_substring :
    (∀ s : String, shouldWatch s = false ↔
      ∃ pre post : List Char, pre ++ ".git".toList ++ post = s.toList) ∧
    shouldWatch "notes.github.txt" = false ∧
    (∀ (st : BackendState) (now : Nat) (s : String),
      shouldWatch s = false → changed st now s = (st, false)) := by
  refine ⟨?_, by decide, ?_⟩
  · intro s
    simp [shouldWatch, isGit, charsContain_iff]
  · intro st now s h
    have hg : isGit s = true := by
      simpa [shouldWatch] using h
    simp [changed, hg]

/-- Witness for C10 at a concrete path containing `.git` only inside a
filename component: it is not watched and any event on it is ignored. -/
theorem watch_filter_substring_witness :
    shouldWatch "notes.github.txt" = false ∧
    changed initState 7 "notes.github.txt" = (initState, false) := by
  have h := watch_filter_substring
  exact ⟨h.2.1, h.2.2 initState 7 "notes.github.txt" h.2.1⟩

/-- The recorded last-event time never exceeds the largest event time. -/
theorem lastEventAt_le_maxEv (events : List Nat) (t : Nat) :
    lastEventAt events t ≤ maxEv events := by
  induction events with
  | nil => simp [lastEventAt, maxEv]
  | cons e rest ih =>
    simp only [lastEventAt, maxEv]
    split
    · exact max_le_max le_rfl ih
    · exact le_trans ih (le_max_right _ _)

/-- The waiting loop only moves forward in time. -/
theorem waitLoopAux_ge (events : List Nat) :
    ∀ (fuel t : Nat), t ≤ waitLoopAux events fuel t := by
  intro fuel
  induction fuel with
  | zero => intro t; simp [waitLoopAux]
  | succ n ih =>
    intro t
    simp only [waitLoopAux]
    split
    · exact le_rfl
    · exact le_trans (Nat.le_succ t) (ih (t + 1))

/-- With enough fuel the waiting loop stops at a time at which at least
the idle window has passed since the latest event. -/
theorem waitLoopAux_fires (events : List Nat) :
    ∀ (fuel t : Nat), maxEv events + 5 ≤ t + fuel →
      5 ≤ waitLoopAux events fuel t -
        lastEventAt events (waitLoopAux events fuel t) := by
  intro fuel
  induction fuel with
  | zero =>
    intro t h
    have := lastEventAt_le_maxEv events t
    simp only [waitLoopAux]
    omega
  | succ n ih =>
    intro t h
    simp only [waitLoopAux]
    split
    · assumption
    · exact ih (t + 1) (by omega)

/-- Unfolding equation for `lastEventAt` on a cons cell. -/
theorem lastEventAt_cons (e : Nat) (rest : List Nat) (t : Nat) :
    lastEventAt (e :: rest) t =
      if e ≤ t then max e (lastEventAt rest t) else lastEventAt rest t := rfl

/-- In a burst chained by non-decreasing times, the first event is the
earliest. -/
theorem burst_head_le :
    ∀ (rest : List Nat) (f x : Nat),
      List.Chain' (fun a b => a ≤ b ∧ b - a < 5) (f :: rest) →
      x ∈ rest → f ≤ x := by
  intro rest
  induction rest with
  | nil => intro f x _ hx; simp at hx
  | cons g rest1 ih =>
    intro f x hchain hx
    rw [List.chain'_cons] at hchain
    rcases List.mem_cons.mp hx with hx | hx
    · exact hx ▸ hchain.1.1
    · exact le_trans hchain.1.1 (ih g x hchain.2 hx)

/-- If every event is strictly in the future, no last event is recorded. -/
theorem lastEventAt_future (events : List Nat) (t : Nat)
    (h : ∀ x ∈ events, t < x) : lastEventAt events t = 0 := by
  induction events with
  | nil => rfl
  | cons e rest ih =>
    have he := h e (by simp)
    simp only [lastEventAt, if_neg (by omega : ¬e ≤ t)]
    exact ih fun x hx => h x (by simp [hx])

/-- Before the last event of a chained burst plus the idle window, the
loop condition never fires: less than the idle window has passed since
the latest recorded event. -/
theorem no_early_fire :
    ∀ (rest : List Nat) (e t : Nat),
      List.Chain' (fun a b => a ≤ b ∧ b - a < 5) (e :: rest) →
      e ≤ t → t < List.getLastD rest e + 5 →
      t - lastEventAt (e :: rest) t < 5 := by
  intro rest
  induction rest with
  | nil =>
    intro e t _ het htl
    simp only [List.getLastD] at htl
    simp only [lastEventAt, if_pos het]
    omega
  | cons f rest1 ih =>
    intro e t hchain het htl
    rw [List.chain'_cons] at hchain
    obtain ⟨⟨hef, hgap⟩, hchain1⟩ := hchain
    simp only [List.getLastD_cons] at htl
    by_cases hft : f ≤ t
    · have hrec := ih f t hchain1 hft htl
      have hmax : lastEventAt (f :: rest1) t ≤
          lastEventAt (e :: f :: rest1) t := by
        rw [lastEventAt_cons e (f :: rest1) t, if_pos het]
        exact le_max_right _ _
      omega
    · have hzero : lastEventAt (f :: rest1) t = 0 := by
        apply lastEventAt_future
        intro x hx
        rcases List.mem_cons.mp hx with hx | hx
        · omega
        · have := burst_head_le rest1 f x hchain1 hx
          omega
      have heq : lastEventAt (e :: f :: rest1) t = e := by
        rw [lastEventAt_cons e (f :: rest1) t, if_pos het, hzero]
        omega
      omega

/-- Once a waiter is pending, further qualifying events only move
`lastEvent` forward; pending state and waiter count are untouched. -/
theorem debRun_enters_pending :
    ∀ (ts : List Nat) (st : BackendState), st.isSyncPending = true →
      debRun st (ts.map DebOp.enter) =
        { st with lastEvent := List.getLastD ts st.lastEvent } := by
  intro ts
  induction ts with
  | nil =>
    intro st _
    simp [debRun]
  | cons t ts1 ih =>
    intro st hp
    obtain ⟨p, a, l, w⟩ := st
    simp only at hp
    subst hp
    rw [show debRun (⟨true, a, l, w⟩ : BackendState)
          (List.map DebOp.enter (t :: ts1)) =
        debRun ⟨true, a, t, w⟩ (List.map DebOp.enter ts1) from rfl,
      ih ⟨true, a, t, w⟩ rfl]
    simp [List.getLastD_cons]
    cases ts1 <;> simp [List.getLast?]

/-- Claim C5 (discrete-time model, one check per second as in the
`syncLater` sleep loop): for a burst of one or more qualifying events
each arriving less than the idle window after the previous one, the
debounced sync begins no earlier than the idle window after the last
event of the burst, and exactly one debounce task ever becomes the
pending waiter (so exactly one pipeline run is triggered); the recorded
last event time is the last of the burst. -/
theorem debounce_burst_single_run (e : Nat) (rest : List Nat)
    (hchain : List.Chain' (fun a b => a ≤ b ∧ b - a < 5) (e :: rest)) :
    List.getLastD rest e + 5 ≤ waitLoop (e :: rest) e ∧
    (debRun initState ((e :: rest).map DebOp.enter)).waiters = 1 ∧
    (debRun initState ((e :: rest).map DebOp.enter)).lastEvent =
      List.getLastD rest e := by
  refine ⟨?_, ?_, ?_⟩
  · have hemax : e ≤ maxEv (e :: rest) := by
      simp only [maxEv]
      exact le_max_left _ _
    have hfire := waitLoopAux_fires (e :: rest) (maxEv (e :: rest) + 5 - e) e
      (by omega)
    have hge := waitLoopAux_ge (e :: rest) (maxEv (e :: rest) + 5 - e) e
    rw [waitLoop]
    set ft := waitLoopAux (e :: rest) (maxEv (e :: rest) + 5 - e) e with hft
    rcases Nat.lt_or_ge ft (List.getLastD rest e + 5) with hlt | hgood
    · exfalso
      have := no_early_fire rest e ft hchain hge hlt
      omega
    · exact hgood
  · rw [show debRun initState ((e :: rest).map DebOp.enter) =
        debRun ⟨true, false, e, 1⟩ (rest.map DebOp.enter) from rfl,
      debRun_enters_pending rest ⟨true, false, e, 1⟩ rfl]
  · rw [show debRun initState ((e :: rest).map DebOp.enter) =
        debRun ⟨true, false, e, 1⟩ (rest.map DebOp.enter) from rfl,
      debRun_enters_pending rest ⟨true, false, e, 1⟩ rfl]

/-- Witness for C5 at the concrete burst 0, 3, 6 (gaps below the idle
window): the sync fires no earlier than second 11 and exactly one waiter
is pending. -/
theorem debounce_burst_single_run_witness :
    11 ≤ waitLoop [0, 3, 6] 0 ∧
    (debRun initState ([0, 3, 6].map DebOp.enter)).waiters = 1 := by
  have h := debounce_burst_single_run 0 [3, 6]
    (by simp [List.chain'_cons])
  exact ⟨h.1, h.2.1⟩

/-- Every state reached by a valid step sequence keeps the waiter count
locked to the pending flag: one pending waiter exactly when the flag is
set. -/
theorem debStates_inv :
    ∀ (ops : List DebOp) (st : BackendState),
      st.waiters = (cond st.isSyncPending 1 0) → debValid st ops = true →
      ∀ s ∈ debStates st ops, s.waiters = (cond s.isSyncPending 1 0) := by
  intro ops
  induction ops with
  | nil =>
    intro st hinv _ s hs
    simp only [debStates, List.mem_singleton] at hs
    exact hs ▸ hinv
  | cons op rest ih =>
    intro st hinv hv s hs
    simp only [debValid, Bool.and_eq_true] at hv
    simp only [debStates, List.mem_cons] at hs
    rcases hs with hs | hs
    · exact hs ▸ hinv
    · refine ih (debStep st op) ?_ hv.2 s hs
      cases op with
      | enter t =>
        obtain ⟨p, a, l, w⟩ := st
        cases p
        · rw [show debStep (⟨false, a, l, w⟩ : BackendState) (DebOp.enter t) =
            ⟨true, a, t, w + 1⟩ from rfl]
          simp only [cond_false] at hinv
          simp [hinv]
        · rw [show debStep (⟨true, a, l, w⟩ : BackendState) (DebOp.enter t) =
            ⟨true, a, t, w⟩ from rfl]
          simpa using hinv
      | clear =>
        have h1 : (1 : Nat) ≤ st.waiters := by
          have := hv.1
          simpa using this
        obtain ⟨p, a, l, w⟩ := st
        rw [show debStep (⟨p, a, l, w⟩ : BackendState) DebOp.clear =
          ⟨false, a, l, w - 1⟩ from rfl]
        cases p <;> simp only [cond_false, cond_true] at hinv h1 ⊢ <;> omega

/-- Claim C6: under concurrent `Changed`/`Notify` calls, with the
read-and-set of `isSyncPending` atomic under the single `syncLock`, at
most one debounce task is ever pending in every reachable state, and a
call arriving while a task is pending only updates the last-event
timestamp, changing nothing else. -/
theorem pending_flag_mutual_exclusion (ops : List DebOp)
    (hv : debValid initState ops = true) :
    ((debStates initState ops).all fun st => decide (st.waiters ≤ 1)) = true ∧
    ∀ (st : BackendState) (t : Nat), st.isSyncPending = true →
      debStep st (DebOp.enter t) = { st with lastEvent := t } := by
  constructor
  · rw [List.all_eq_true]
    intro st hst
    have h := debStates_inv ops initState (by simp [initState]) hv st hst
    cases hp : st.isSyncPending <;> rw [hp] at h <;> simp [h]
  · intro st t hp
    simp [debStep, hp]

/-- Witness for C6 at a concrete interleaving: two overlapping bursts with
a clear in between never have more than one pending waiter. -/
theorem pending_flag_mutual_exclusion_witness :
    ((debStates initState
      [DebOp.enter 0, DebOp.enter 3, DebOp.clear, DebOp.enter 10]).all
      fun st => decide (st.waiters ≤ 1)) = true := by
  exact (pending_flag_mutual_exclusion
    [DebOp.enter 0, DebOp.enter 3, DebOp.clear, DebOp.enter 10] (by decide)).1
